import Mathlib

/-!
Shallow embedding of the C++ template class `dynamic_array<T, L = unsigned int>`
from `src/dynamic_array.h` of the repository.

Modelling conventions:

* `length_t` (the default `L = unsigned int`) is modelled as `Nat` with arithmetic
  reduced modulo `2^32` at exactly the places where the source performs unsigned
  arithmetic that can wrap (`--m_size` in `pop_back`, `m_size - 1` in `last`,
  `last_index` and `swap_remove`, the `int -> unsigned` conversion of index
  arguments, `m_size + 1` and `2 * m_capacity` in `push_back`).
* The raw storage buffer `m_storage` holds `m_capacity` element-sized slots of
  which the first `m_size` hold live objects.  The model keeps the list `elems`
  of those live values; slots in `[m_size, m_capacity)` are uninitialized and
  unobservable through the public interface, so they are not represented.
  In every state the class can reach through its public interface the length of
  `elems` equals `m_size`; theorems that need this carry it as a hypothesis.
* `throw std::out_of_range` is modelled by `Except.error ()`.  In the source the
  throw inside `assert` happens before any write, so an operation that throws
  leaves the array exactly as it was.
* Destroying an object in place (`remove`, the destructor calls) has no
  observable effect on the remaining live values, so at this level it only
  shortens the live prefix.
-/

/-- Modulus of the default length type `length_t = unsigned int`: 2^32. -/
def lenMod : Nat := 2 ^ 32

/-- Conversion of a C++ `int` value to `length_t = unsigned int`, i.e. reduction
modulo 2^32.  This happens implicitly when `shift_remove`/`swap_remove` pass their
`int index` to `assert(length_t)` and compare it against unsigned quantities. -/
def toLen (i : Int) : Nat := (i % (lenMod : Int)).toNat

/-- Unsigned subtraction of one on a `length_t` value, i.e. `n - 1` computed
modulo 2^32: it wraps to `2^32 - 1` when `n = 0` and equals the ordinary `n - 1`
for `0 < n < 2^32`.  Used by `pop_back` (`--m_size`), `last`, `last_index` and
`swap_remove` (`m_size - 1`). -/
def usub1 (n : Nat) : Nat := if n = 0 then lenMod - 1 else (n - 1) % lenMod

/-- State of a `dynamic_array<T>` object: the two counters and the list of live
element values stored in slots `[0, m_size)` of `m_storage`. -/
structure dynamic_array (α : Type) where
  m_capacity : Nat
  m_size : Nat
  elems : List α
deriving DecidableEq

namespace dynamic_array

variable {α : Type} {β : Type} [Inhabited α]

/-- Member `size()`: returns `m_size`. -/
def size (a : dynamic_array α) : Nat := a.m_size

/-- Member `capacity()`: returns `m_capacity`. -/
def capacity (a : dynamic_array α) : Nat := a.m_capacity

/-- Protected helper `assert(length_t index)`: throws `std::out_of_range`
exactly when `index >= m_size`. -/
def assert (a : dynamic_array α) (index : Nat) : Except Unit Unit :=
  if a.m_size ≤ index then Except.error () else Except.ok ()

/-- Member `operator[](length_t index)`: calls `assert(index)` (throwing when
`index >= m_size`), then returns the element stored at slot `index`. -/
def get (a : dynamic_array α) (index : Nat) : Except Unit α :=
  if a.m_size ≤ index then Except.error ()
  else Except.ok (a.elems.getD index default)

/-- Member `first()`: returns `(*this)[0]`. -/
def first (a : dynamic_array α) : Except Unit α := a.get 0

/-- Member `last()`: returns `(*this)[m_size - 1]`, the index computed in
unsigned arithmetic (so on an empty array the index is `2^32 - 1`, which the
bounds check rejects). -/
def last (a : dynamic_array α) : Except Unit α := a.get (usub1 a.m_size)

/-- Member `last_index()`: calls `assert(m_size - 1)` (unsigned arithmetic, so
on an empty array the checked index is `2^32 - 1` and the call throws), then
returns `m_size - 1`. -/
def last_index (a : dynamic_array α) : Except Unit Nat :=
  if a.m_size ≤ usub1 a.m_size then Except.error ()
  else Except.ok (usub1 a.m_size)

/-- Protected `grow(length_t capacity)`: allocates a buffer of the new capacity,
move-relocates the `m_size` live elements into it (their values are unchanged),
frees the old buffer and adopts the new one.  `m_size` is not touched. -/
def grow (a : dynamic_array α) (cap : Nat) : dynamic_array α :=
  { a with m_capacity := cap }

/-- Member `push_back(T element)`: if `m_size + 1 > m_capacity` (unsigned
arithmetic) first `grow(m_capacity ? 2 * m_capacity : 1)`, then
placement-construct the element at slot `m_size` and increment `m_size`. -/
def push_back (a : dynamic_array α) (element : α) : dynamic_array α :=
  let a1 := if a.m_capacity < (a.m_size + 1) % lenMod
            then a.grow (if a.m_capacity = 0 then 1 else (2 * a.m_capacity) % lenMod)
            else a
  { a1 with m_size := (a1.m_size + 1) % lenMod, elems := a1.elems ++ [element] }

/-- Member `emplace_back(Args&&... args)`: identical storage behaviour to
`push_back` — same growth check, then placement-construction at slot `m_size`
and increment of `m_size`; here the value built from the forwarded constructor
arguments is the parameter `element`.  (The C++ function additionally returns a
reference to `last()`, which is not needed by any claim.) -/
def emplace_back (a : dynamic_array α) (element : α) : dynamic_array α :=
  let a1 := if a.m_capacity < (a.m_size + 1) % lenMod
            then a.grow (if a.m_capacity = 0 then 1 else (2 * a.m_capacity) % lenMod)
            else a
  { a1 with m_size := (a1.m_size + 1) % lenMod, elems := a1.elems ++ [element] }

/-- Member `pop_back()`: executes `remove(--m_size)`.  There is no bounds check:
the unsigned pre-decrement wraps to `2^32 - 1` when `m_size == 0`, and the
destructor call targets that slot.  On a non-empty array this destroys the last
live element. -/
def pop_back (a : dynamic_array α) : dynamic_array α :=
  { a with m_size := usub1 a.m_size, elems := a.elems.dropLast }

/-- Body of the loop in `shift_remove`:
`for (int i = index + 1; i < m_size; i++) (*this)[i - 1] = std::move((*this)[i]);`
modelled with the unsigned value `i` of the counter (the loop is only reached
after `assert` passed, so the counter's unsigned value starts at
`toLen index + 1` and increases by one as long as it is `< m_size`). -/
def shiftLoop (l : List α) (i sz : Nat) : List α :=
  if i < sz then shiftLoop (l.set (i - 1) (l.getD i default)) (i + 1) sz else l
termination_by sz - i

/-- Member `shift_remove(int index)`: `assert(index)` (the `int` is converted to
`length_t`), then the left-shifting loop, then `pop_back()`. -/
def shift_remove (a : dynamic_array α) (index : Int) : Except Unit (dynamic_array α) :=
  if a.m_size ≤ toLen index then Except.error ()
  else Except.ok (pop_back { a with elems := shiftLoop a.elems (toLen index + 1) a.m_size })

/-- Member `swap_remove(int index)`: `assert(index)`, then
`if (index < m_size - 1) swap((*this)[index], last());` (both sides of the
comparison in unsigned arithmetic), then `pop_back()`. -/
def swap_remove (a : dynamic_array α) (index : Int) : Except Unit (dynamic_array α) :=
  if a.m_size ≤ toLen index then Except.error ()
  else
    let j := toLen index
    let k := usub1 a.m_size
    let swapped := (a.elems.set j (a.elems.getD k default)).set k (a.elems.getD j default)
    let a1 := if j < k then { a with elems := swapped } else a
    Except.ok (pop_back a1)

/-- Member `clear()`: destroys the live elements at `[0, m_size)` in index
order and sets `m_size = 0`; the buffer and `m_capacity` are retained. -/
def clear (a : dynamic_array α) : dynamic_array α :=
  { a with m_size := 0, elems := [] }

/-- Loop of `linearSearch`:
`while (i < size() && !(pred((*this)[i], value))) { i++; }` — every access is at
`i < m_size`, so the bounds check inside `operator[]` never fires. -/
def lsLoop (a : dynamic_array α) (value : β) (pred : α → β → Bool) (i : Nat) : Nat :=
  if i < a.m_size then
    if pred (a.elems.getD i default) value then i else lsLoop a value pred (i + 1)
  else i
termination_by a.m_size - i

/-- Member `linearSearch(value, pred)`: returns the first index whose element
satisfies the predicate, or `size()` when none does. -/
def linearSearch (a : dynamic_array α) (value : β) (pred : α → β → Bool) : Nat :=
  lsLoop a value pred 0

/-- Loop of `binarySearch`.  The counters `imin`/`imax` are C++ `int`s whose
values stay in `[0, m_size - 1]` (faithful as long as that range fits in `int`;
the theorems carry the corresponding size bound).  The inner
`if (imin >= imax) break;` of the source is dead code — the loop guard has just
established `imin < imax` — and is therefore not represented. -/
def bsLoop (a : dynamic_array α) (value : β) (pred : α → β → Int)
    (imin imax : Nat) : Nat :=
  if h : imin < imax then
    let imid := (imin + imax) / 2
    if pred (a.elems.getD imid default) value < 0 then bsLoop a value pred (imid + 1) imax
    else bsLoop a value pred imin imid
  else imin
termination_by imax - imin
decreasing_by
  · omega
  · omega

/-- Member `binarySearch(value, pred)`: `int imax = this->last_index();` (which
throws on an empty array), `int imin = 0`, then the halving loop; returns
`imin`. -/
def binarySearch (a : dynamic_array α) (value : β) (pred : α → β → Int) :
    Except Unit Nat :=
  match a.last_index with
  | Except.error _ => Except.error ()
  | Except.ok li => Except.ok (bsLoop a value pred 0 li)

/-- Constructor `dynamic_array(length_t capacity)`: allocates `capacity` slots,
`m_size = 0`, no live elements. -/
def ofCapacity (cap : Nat) : dynamic_array α := ⟨cap, 0, []⟩

/-- Default constructor `dynamic_array()`: delegates to `dynamic_array(0)`. -/
def empty : dynamic_array α := ofCapacity 0

/-- Constructor `dynamic_array(length_t count, const T &val)`: delegates to
`dynamic_array(count)` — which sets `m_capacity = count` and `m_size = 0` —
and then runs `for (length_t i = 0; i < m_size; i++) push_back(val);`.
Because the delegated constructor has just set `m_size = 0`, the guard
`0 < m_size` of the first iteration is false and the loop body never executes:
the constructor returns with `m_size = 0` and no elements stored. -/
def fillCtor (count : Nat) (_val : α) : dynamic_array α := ofCapacity count

/-- Loop of the copy constructor:
`for (int i = 0; i < other.m_size; i++) push_back(other[i]);`. -/
def copyLoop (other : dynamic_array α) (a : dynamic_array α) (i : Nat) :
    dynamic_array α :=
  if i < other.m_size then copyLoop other (a.push_back (other.elems.getD i default)) (i + 1)
  else a
termination_by other.m_size - i

/-- Copy constructor `dynamic_array(const dynamic_array<T> &other)`: delegates
to `dynamic_array(other.m_capacity)`, then pushes copies of the live elements of
`other` in index order. -/
def copyCtor (other : dynamic_array α) : dynamic_array α :=
  copyLoop other (ofCapacity other.m_capacity) 0

/-- Move constructor: default-constructs and then swaps with `other`; the pair
is `(the new array, what other is left as)`. -/
def moveCtor (other : dynamic_array α) : dynamic_array α × dynamic_array α :=
  (other, empty)

end dynamic_array

/-- One public mutating call on a `dynamic_array` object.  `copyAssign b` is
`operator=(other)` with an lvalue argument (the by-value parameter is
copy-constructed from `b` and swapped into `*this`); `moveAssign b` is the same
operator with an rvalue argument (the parameter is move-constructed from `b`). -/
inductive Op (α : Type) where
  | push (v : α)
  | emplace (v : α)
  | pop
  | shiftRm (index : Int)
  | swapRm (index : Int)
  | clearOp
  | copyAssign (b : dynamic_array α)
  | moveAssign (b : dynamic_array α)
deriving DecidableEq

namespace dynamic_array

variable {α : Type} [Inhabited α]

/-- Effect of one public call on the state of the array.  For the two
index-based removal operations an out-of-range index makes the source throw
inside `assert` before any write, so the exception propagates and the object is
left exactly as it was; this is what the `Except.error` branch returns. -/
def step (a : dynamic_array α) : Op α → dynamic_array α
  | Op.push v => a.push_back v
  | Op.emplace v => a.emplace_back v
  | Op.pop => a.pop_back
  | Op.shiftRm i =>
    match a.shift_remove i with
    | Except.ok b => b
    | Except.error _ => a
  | Op.swapRm i =>
    match a.swap_remove i with
    | Except.ok b => b
    | Except.error _ => a
  | Op.clearOp => a.clear
  | Op.copyAssign b => copyCtor b
  | Op.moveAssign b => b

/-- Run a sequence of public calls. -/
def run (a : dynamic_array α) (ops : List (Op α)) : dynamic_array α :=
  ops.foldl step a

/-- Side conditions under which one call stays inside the machine arithmetic of
`length_t` and inside `pop_back`'s implicit precondition: `pop_back` is only
applied to a non-empty array, an insertion never pushes `m_size + 1` or a
doubled capacity past `2^32`, and an assigned-from array itself satisfies the
basic size/capacity bounds. -/
def SafeOp (a : dynamic_array α) : Op α → Bool
  | Op.push _ =>
    decide (a.m_size + 1 < lenMod ∧ (a.m_size = a.m_capacity → 2 * a.m_capacity < lenMod))
  | Op.emplace _ =>
    decide (a.m_size + 1 < lenMod ∧ (a.m_size = a.m_capacity → 2 * a.m_capacity < lenMod))
  | Op.pop => decide (0 < a.m_size)
  | Op.shiftRm _ => true
  | Op.swapRm _ => true
  | Op.clearOp => true
  | Op.copyAssign b => decide (b.m_size ≤ b.m_capacity ∧ b.m_capacity < lenMod)
  | Op.moveAssign b => decide (b.m_size ≤ b.m_capacity ∧ b.m_capacity < lenMod)

/-- A whole call sequence is safe when every call is safe in the state it is
actually applied to. -/
def SafeTrace (a : dynamic_array α) : List (Op α) → Bool
  | [] => true
  | op :: ops => SafeOp a op && SafeTrace (step a op) ops

/-- Iterate `push_back` of the same value `k` times (the value pushed is
irrelevant to the size/capacity bookkeeping). -/
def pushN (v : α) : Nat → dynamic_array α → dynamic_array α
  | 0, a => a
  | k + 1, a => (pushN v k a).push_back v

end dynamic_array

/-! Arithmetic facts about the `length_t` helpers. -/

theorem lenMod_pos : 0 < lenMod := by decide

theorem usub1_zero : usub1 0 = lenMod - 1 := by decide

theorem usub1_eq {n : Nat} (h1 : 1 ≤ n) (h2 : n ≤ lenMod) : usub1 n = n - 1 := by
  unfold usub1 lenMod at *
  split
  · omega
  · omega

theorem toLen_coe {i : Nat} (h : i < lenMod) : toLen (i : Int) = i := by
  unfold toLen lenMod at *
  omega

theorem toLen_neg_ge {i : Int} (hneg : i < 0) (hge : -(2 ^ 31) ≤ i) :
    2 ^ 31 ≤ toLen i := by
  unfold toLen lenMod at *
  omega

/-! Equation lemmas.  Reduction of `Nat.mod` applied to non-literal arguments
diverges under definitional unfolding, so all later proofs rewrite with the
following equations instead of relying on `rfl`. -/

namespace dynamic_array

variable {α : Type} {β : Type}

theorem pop_back_def (a : dynamic_array α) :
    a.pop_back = ⟨a.m_capacity, usub1 a.m_size, a.elems.dropLast⟩ := rfl

theorem empty_def : (empty : dynamic_array α) = ⟨0, 0, []⟩ := rfl

theorem grow_m_size (a : dynamic_array α) (cap : Nat) : (a.grow cap).m_size = a.m_size := by
  rw [grow]

theorem clear_def (a : dynamic_array α) : a.clear = ⟨a.m_capacity, 0, []⟩ := rfl

theorem step_push [Inhabited α] (a : dynamic_array α) (v : α) :
    step a (Op.push v) = a.push_back v := rfl

theorem step_emplace [Inhabited α] (a : dynamic_array α) (v : α) :
    step a (Op.emplace v) = a.emplace_back v := rfl

theorem step_pop [Inhabited α] (a : dynamic_array α) :
    step a Op.pop = a.pop_back := rfl

theorem step_shiftRm [Inhabited α] (a : dynamic_array α) (i : Int) :
    step a (Op.shiftRm i) =
      match a.shift_remove i with
      | Except.ok b => b
      | Except.error _ => a := rfl

theorem step_swapRm [Inhabited α] (a : dynamic_array α) (i : Int) :
    step a (Op.swapRm i) =
      match a.swap_remove i with
      | Except.ok b => b
      | Except.error _ => a := rfl

theorem step_clearOp [Inhabited α] (a : dynamic_array α) :
    step a Op.clearOp = a.clear := rfl

theorem step_copyAssign [Inhabited α] (a b : dynamic_array α) :
    step a (Op.copyAssign b) = copyCtor b := rfl

theorem step_moveAssign [Inhabited α] (a b : dynamic_array α) :
    step a (Op.moveAssign b) = b := rfl

theorem emplace_back_eq_push_back (a : dynamic_array α) (v : α) :
    a.emplace_back v = a.push_back v := rfl

theorem push_back_of_grow {a : dynamic_array α} (v : α)
    (h : a.m_capacity < (a.m_size + 1) % lenMod) :
    a.push_back v = ⟨if a.m_capacity = 0 then 1 else (2 * a.m_capacity) % lenMod,
                     (a.m_size + 1) % lenMod, a.elems ++ [v]⟩ := by
  simp only [push_back, grow, if_pos h]

theorem push_back_no_grow {a : dynamic_array α} (v : α)
    (h : ¬ a.m_capacity < (a.m_size + 1) % lenMod) :
    a.push_back v = ⟨a.m_capacity, (a.m_size + 1) % lenMod, a.elems ++ [v]⟩ := by
  simp only [push_back, if_neg h]

theorem get_err [Inhabited α] {a : dynamic_array α} {i : Nat} (h : a.m_size ≤ i) :
    a.get i = Except.error () := by
  simp only [get, if_pos h]

theorem get_ok [Inhabited α] {a : dynamic_array α} {i : Nat} (h : i < a.m_size) :
    a.get i = Except.ok (a.elems.getD i default) := by
  simp only [get, if_neg (not_le.mpr h)]

theorem last_index_empty {a : dynamic_array α} (h : a.m_size = 0) :
    a.last_index = Except.error () := by
  simp only [last_index, h]
  rw [if_pos (Nat.zero_le _)]

theorem last_index_pos {a : dynamic_array α} (h1 : 1 ≤ a.m_size)
    (h2 : a.m_size ≤ lenMod) : a.last_index = Except.ok (a.m_size - 1) := by
  simp only [last_index, usub1_eq h1 h2]
  rw [if_neg (by omega)]

theorem shift_remove_err [Inhabited α] {a : dynamic_array α} {i : Int} (h : a.m_size ≤ toLen i) :
    a.shift_remove i = Except.error () := by
  simp only [shift_remove, if_pos h]

theorem shift_remove_ok [Inhabited α] {a : dynamic_array α} {i : Int} (h : toLen i < a.m_size) :
    a.shift_remove i =
      Except.ok (pop_back ⟨a.m_capacity, a.m_size,
        shiftLoop a.elems (toLen i + 1) a.m_size⟩) := by
  simp only [shift_remove, if_neg (not_le.mpr h)]

theorem swap_remove_err [Inhabited α] {a : dynamic_array α} {i : Int} (h : a.m_size ≤ toLen i) :
    a.swap_remove i = Except.error () := by
  simp only [swap_remove, if_pos h]

theorem swap_remove_ok_swap [Inhabited α] {a : dynamic_array α} {i : Int} (h : toLen i < a.m_size)
    (hlt : toLen i < usub1 a.m_size) :
    a.swap_remove i =
      Except.ok (pop_back ⟨a.m_capacity, a.m_size,
        (a.elems.set (toLen i) (a.elems.getD (usub1 a.m_size) default)).set
          (usub1 a.m_size) (a.elems.getD (toLen i) default)⟩) := by
  simp only [swap_remove, if_neg (not_le.mpr h), if_pos hlt]

theorem swap_remove_ok_last [Inhabited α] {a : dynamic_array α} {i : Int} (h : toLen i < a.m_size)
    (hge : ¬ toLen i < usub1 a.m_size) :
    a.swap_remove i = Except.ok (pop_back a) := by
  simp only [swap_remove, if_neg (not_le.mpr h), if_neg hge]

end dynamic_array

/-- C1: the fill constructor `dynamic_array(count, val)` evaluated at
`count = 3`, `val = 7` returns an array with `size == 0`, `capacity == 3` and no
stored copies of the value — the insertion loop bounds itself by `m_size`, which
the delegated constructor has just set to `0`, so it never runs.  This
contradicts the constructor's own documentation (`size = capacity`) and the
claimed `size == n` with every slot holding a copy of `v`. -/
theorem fillCtor_inserts_nothing :
    (dynamic_array.fillCtor 3 (7 : Nat)).m_size = 0 ∧
    (dynamic_array.fillCtor 3 (7 : Nat)).m_capacity = 3 ∧
    (dynamic_array.fillCtor 3 (7 : Nat)).elems = [] :=
  ⟨rfl, rfl, rfl⟩

/-- C2 (counterexample): `pop_back()` on an empty array does not leave `size`
unchanged (and raises no out-of-range failure — the operation performs no bounds
check): the unsigned pre-decrement wraps `m_size` from `0` to `2^32 - 1`. -/
theorem pop_back_empty_cex :
    (dynamic_array.empty : dynamic_array Nat).pop_back.m_size = 4294967295 ∧
    ¬ ((dynamic_array.empty : dynamic_array Nat).pop_back.m_size
        = (dynamic_array.empty : dynamic_array Nat).m_size) := by
  have h : (dynamic_array.empty : dynamic_array Nat).pop_back.m_size = 4294967295 := by
    rw [dynamic_array.pop_back_def]
    norm_num [dynamic_array.empty, dynamic_array.ofCapacity, usub1, lenMod]
  refine ⟨h, ?_⟩
  rw [h]
  show ¬ (4294967295 = 0)
  omega

/-- C2 (amended): on an empty array `first()` and `last_index()` raise the
out-of-range failure and leave `size` and `capacity` unchanged (the throw
happens inside the bounds check, before any write), while `pop_back()` performs
no bounds check: it raises nothing and wraps `m_size` to `2^32 - 1`, leaving
`m_capacity` unchanged. -/
theorem empty_accessors_spec {α : Type} [Inhabited α] (a : dynamic_array α)
    (h : a.m_size = 0) :
    a.first = Except.error () ∧ a.last_index = Except.error () ∧
    a.pop_back.m_size = lenMod - 1 ∧ a.pop_back.m_capacity = a.m_capacity := by
  refine ⟨?_, ?_, ?_, ?_⟩
  · rw [dynamic_array.first]
    exact dynamic_array.get_err (by omega)
  · exact dynamic_array.last_index_empty h
  · simp only [dynamic_array.pop_back_def, h, usub1_zero]
  · simp only [dynamic_array.pop_back_def]

/-- C2 (witness): the amended statement instantiated at the empty array. -/
theorem empty_accessors_spec_witness :
    (dynamic_array.empty : dynamic_array Nat).m_size = 0 ∧
    ((dynamic_array.empty : dynamic_array Nat).first = Except.error () ∧
     (dynamic_array.empty : dynamic_array Nat).last_index = Except.error () ∧
     (dynamic_array.empty : dynamic_array Nat).pop_back.m_size = lenMod - 1 ∧
     (dynamic_array.empty : dynamic_array Nat).pop_back.m_capacity
        = (dynamic_array.empty : dynamic_array Nat).m_capacity) :=
  ⟨rfl, empty_accessors_spec _ rfl⟩

/-- C9: on an empty array `binarySearch` raises the out-of-range failure for
every value and predicate — the initialisation `int imax = this->last_index();`
throws before the loop can run, so no index is ever returned — while
`linearSearch` on the same array raises nothing and returns the sentinel
`0 == size()`. -/
theorem empty_search_spec {α β : Type} [Inhabited α] (a : dynamic_array α)
    (v : β) (predI : α → β → Int) (predB : α → β → Bool) (h : a.m_size = 0) :
    a.binarySearch v predI = Except.error () ∧
    a.linearSearch v predB = 0 ∧ a.size = 0 := by
  refine ⟨?_, ?_, h⟩
  · unfold dynamic_array.binarySearch
    rw [dynamic_array.last_index_empty h]
  · unfold dynamic_array.linearSearch
    rw [dynamic_array.lsLoop]
    simp [h]

/-- C9 (witness): the statement instantiated at the empty array over `Nat`. -/
theorem empty_search_spec_witness :
    (dynamic_array.empty : dynamic_array Nat).m_size = 0 ∧
    ((dynamic_array.empty : dynamic_array Nat).binarySearch 5 (fun x v => (x : Int) - v)
        = Except.error () ∧
     (dynamic_array.empty : dynamic_array Nat).linearSearch 5 (fun x v => x == v) = 0 ∧
     (dynamic_array.empty : dynamic_array Nat).size = 0) :=
  ⟨rfl, @empty_search_spec Nat Nat _ dynamic_array.empty 5
    (fun x v => (x : Int) - v) (fun x v => x == v) rfl⟩

/-- C4: for every index `>= size` the operations `operator[]`, `shift_remove`
and `swap_remove` raise the out-of-range failure and leave the array unmodified
(self, size, capacity and elements unchanged — the throw happens inside the
bounds check, before any write); on an empty array `first`, `last` and
`last_index` raise it as well; and for every index `< size` (resp. on a
non-empty array) none of these operations raises it.  The index argument of the
two removal operations is a C++ `int`, so the stated indices are those below
`2^31`; `m_size < 2^32` is the `length_t` range of the size counter. -/
theorem index_bounds_contract {α : Type} [Inhabited α] (a : dynamic_array α) (i : Nat)
    (hint : i < 2 ^ 31) (hM : a.m_size < lenMod) :
    (a.m_size ≤ i →
      a.get i = Except.error () ∧
      a.shift_remove (i : Int) = Except.error () ∧
      dynamic_array.step a (Op.shiftRm (i : Int)) = a ∧
      a.swap_remove (i : Int) = Except.error () ∧
      dynamic_array.step a (Op.swapRm (i : Int)) = a) ∧
    (a.m_size = 0 →
      a.first = Except.error () ∧ a.last = Except.error () ∧
      a.last_index = Except.error ()) ∧
    (i < a.m_size →
      (∃ x, a.get i = Except.ok x) ∧
      (∃ b, a.shift_remove (i : Int) = Except.ok b) ∧
      (∃ b, a.swap_remove (i : Int) = Except.ok b)) ∧
    (0 < a.m_size →
      (∃ x, a.first = Except.ok x) ∧ (∃ x, a.last = Except.ok x) ∧
      a.last_index = Except.ok (a.m_size - 1)) := by
  have hiM : i < lenMod := by unfold lenMod at *; omega
  have htl : toLen (i : Int) = i := toLen_coe hiM
  refine ⟨?_, ?_, ?_, ?_⟩
  · intro h
    have hs : a.shift_remove (i : Int) = Except.error () :=
      dynamic_array.shift_remove_err (by rw [htl]; exact h)
    have hw : a.swap_remove (i : Int) = Except.error () :=
      dynamic_array.swap_remove_err (by rw [htl]; exact h)
    refine ⟨dynamic_array.get_err h, hs, ?_, hw, ?_⟩
    · simp [dynamic_array.step, hs]
    · simp [dynamic_array.step, hw]
  · intro h
    refine ⟨dynamic_array.get_err (by omega), ?_, dynamic_array.last_index_empty h⟩
    exact dynamic_array.get_err (by rw [h]; exact Nat.zero_le _)
  · intro h
    have h1 : toLen (i : Int) < a.m_size := by rw [htl]; exact h
    refine ⟨⟨_, dynamic_array.get_ok h⟩, ⟨_, dynamic_array.shift_remove_ok h1⟩, ?_⟩
    by_cases hc : toLen (i : Int) < usub1 a.m_size
    · exact ⟨_, dynamic_array.swap_remove_ok_swap h1 hc⟩
    · exact ⟨_, dynamic_array.swap_remove_ok_last h1 hc⟩
  · intro h
    have h1 : usub1 a.m_size = a.m_size - 1 := usub1_eq h (le_of_lt hM)
    have hlast : a.last = Except.ok (a.elems.getD (a.m_size - 1) default) := by
      rw [dynamic_array.last, h1]
      exact dynamic_array.get_ok (by omega)
    exact ⟨⟨_, dynamic_array.get_ok h⟩, ⟨_, hlast⟩,
      dynamic_array.last_index_pos h (le_of_lt hM)⟩

/-- C4 (witness): the bounds contract instantiated at the two-element array
`[10, 20]` (capacity 2) and the index 1. -/
theorem index_bounds_contract_witness :
    (1 < 2 ^ 31 ∧ (⟨2, 2, [10, 20]⟩ : dynamic_array Nat).m_size < lenMod) ∧
    (((⟨2, 2, [10, 20]⟩ : dynamic_array Nat).m_size ≤ 1 →
      (⟨2, 2, [10, 20]⟩ : dynamic_array Nat).get 1 = Except.error () ∧
      (⟨2, 2, [10, 20]⟩ : dynamic_array Nat).shift_remove ((1 : Nat) : Int) = Except.error () ∧
      dynamic_array.step (⟨2, 2, [10, 20]⟩ : dynamic_array Nat) (Op.shiftRm ((1 : Nat) : Int))
        = (⟨2, 2, [10, 20]⟩ : dynamic_array Nat) ∧
      (⟨2, 2, [10, 20]⟩ : dynamic_array Nat).swap_remove ((1 : Nat) : Int) = Except.error () ∧
      dynamic_array.step (⟨2, 2, [10, 20]⟩ : dynamic_array Nat) (Op.swapRm ((1 : Nat) : Int))
        = (⟨2, 2, [10, 20]⟩ : dynamic_array Nat)) ∧
    ((⟨2, 2, [10, 20]⟩ : dynamic_array Nat).m_size = 0 →
      (⟨2, 2, [10, 20]⟩ : dynamic_array Nat).first = Except.error () ∧
      (⟨2, 2, [10, 20]⟩ : dynamic_array Nat).last = Except.error () ∧
      (⟨2, 2, [10, 20]⟩ : dynamic_array Nat).last_index = Except.error ()) ∧
    (1 < (⟨2, 2, [10, 20]⟩ : dynamic_array Nat).m_size →
      (∃ x, (⟨2, 2, [10, 20]⟩ : dynamic_array Nat).get 1 = Except.ok x) ∧
      (∃ b, (⟨2, 2, [10, 20]⟩ : dynamic_array Nat).shift_remove ((1 : Nat) : Int) = Except.ok b) ∧
      (∃ b, (⟨2, 2, [10, 20]⟩ : dynamic_array Nat).swap_remove ((1 : Nat) : Int) = Except.ok b)) ∧
    (0 < (⟨2, 2, [10, 20]⟩ : dynamic_array Nat).m_size →
      (∃ x, (⟨2, 2, [10, 20]⟩ : dynamic_array Nat).first = Except.ok x) ∧
      (∃ x, (⟨2, 2, [10, 20]⟩ : dynamic_array Nat).last = Except.ok x) ∧
      (⟨2, 2, [10, 20]⟩ : dynamic_array Nat).last_index
        = Except.ok ((⟨2, 2, [10, 20]⟩ : dynamic_array Nat).m_size - 1))) :=
  ⟨⟨by norm_num, by norm_num [lenMod]⟩,
    index_bounds_contract (⟨2, 2, [10, 20]⟩ : dynamic_array Nat) 1
      (by norm_num) (by norm_num [lenMod])⟩

/-- C10 (counterexample): the signed-to-unsigned conversion does not reject
every negative index on every array.  On an array holding `2^31 + 1` live
elements (reachable through the sized constructor and `push_back`),
`shift_remove(-2^31)` converts the index to `2^31`, which passes the bounds
check `2^31 >= 2^31 + 1 = false`; no exception is raised, the shifting loop
performs no iteration (its counter's unsigned value starts at `2^31 + 1 =
m_size`), and `pop_back` deletes the last element: the size changes from
`2^31 + 1` to `2^31`. -/
theorem negative_index_cex :
    (⟨2 ^ 31 + 1, 2 ^ 31 + 1, List.replicate (2 ^ 31 + 1) (0 : Nat)⟩ :
        dynamic_array Nat).shift_remove (-(2 ^ 31)) =
      Except.ok ⟨2 ^ 31 + 1, 2 ^ 31, List.replicate (2 ^ 31) (0 : Nat)⟩ := by
  have htl : toLen (-(2 ^ 31)) = 2 ^ 31 := by
    unfold toLen lenMod
    omega
  have hlt : toLen (-(2 ^ 31)) <
      (⟨2 ^ 31 + 1, 2 ^ 31 + 1, List.replicate (2 ^ 31 + 1) (0 : Nat)⟩ :
        dynamic_array Nat).m_size := by
    rw [htl]
    dsimp only
    omega
  rw [dynamic_array.shift_remove_ok hlt]
  dsimp only
  rw [dynamic_array.pop_back_def]
  dsimp only
  rw [dynamic_array.shiftLoop, htl]
  rw [if_neg (by omega)]
  have hu : usub1 (2 ^ 31 + 1) = 2 ^ 31 + 1 - 1 :=
    usub1_eq (by omega) (by unfold lenMod; omega)
  rw [hu]
  rw [List.replicate_succ' (2 ^ 31) (0 : Nat), List.dropLast_concat]
  rw [Except.ok.injEq, dynamic_array.mk.injEq]
  refine ⟨rfl, by omega, rfl⟩

/-- C10 (amended): for every array whose size is at most `2^31` and every
negative index representable as a C++ `int`, `shift_remove` and `swap_remove`
raise the out-of-range failure (the signed index converts to an unsigned value
`>= 2^31 >= size` in the bounds check) and leave the array unchanged; for sizes
above `2^31` a sufficiently negative index converts to a value below the size
and is treated as in range. -/
theorem negative_index_remove {α : Type} [Inhabited α] (a : dynamic_array α) (i : Int)
    (hsz : a.m_size ≤ 2 ^ 31) (hneg : i < 0) (hrep : -(2 ^ 31) ≤ i) :
    a.shift_remove i = Except.error () ∧ dynamic_array.step a (Op.shiftRm i) = a ∧
    a.swap_remove i = Except.error () ∧ dynamic_array.step a (Op.swapRm i) = a := by
  have h : a.m_size ≤ toLen i := le_trans hsz (toLen_neg_ge hneg hrep)
  have hs : a.shift_remove i = Except.error () := dynamic_array.shift_remove_err h
  have hw : a.swap_remove i = Except.error () := dynamic_array.swap_remove_err h
  exact ⟨hs, by simp [dynamic_array.step, hs], hw, by simp [dynamic_array.step, hw]⟩

/-- C10 (witness): the amended statement instantiated at the array `[5, 6]` and
the index `-1`. -/
theorem negative_index_remove_witness :
    ((⟨2, 2, [5, 6]⟩ : dynamic_array Nat).m_size ≤ 2 ^ 31 ∧ (-1 : Int) < 0 ∧
      -(2 ^ 31) ≤ (-1 : Int)) ∧
    ((⟨2, 2, [5, 6]⟩ : dynamic_array Nat).shift_remove (-1) = Except.error () ∧
     dynamic_array.step (⟨2, 2, [5, 6]⟩ : dynamic_array Nat) (Op.shiftRm (-1))
        = (⟨2, 2, [5, 6]⟩ : dynamic_array Nat) ∧
     (⟨2, 2, [5, 6]⟩ : dynamic_array Nat).swap_remove (-1) = Except.error () ∧
     dynamic_array.step (⟨2, 2, [5, 6]⟩ : dynamic_array Nat) (Op.swapRm (-1))
        = (⟨2, 2, [5, 6]⟩ : dynamic_array Nat)) :=
  ⟨⟨by norm_num, by norm_num, by norm_num⟩,
    negative_index_remove (⟨2, 2, [5, 6]⟩ : dynamic_array Nat) (-1)
      (by norm_num) (by norm_num) (by norm_num)⟩

/-! Helper characterisations of `push_back` when the `length_t` arithmetic does
not wrap: the growing case and the in-capacity case. -/

theorem push_back_full {α : Type} [Inhabited α] {a : dynamic_array α} (v : α)
    (hm : a.m_size + 1 < lenMod) (hc : 2 * a.m_capacity < lenMod)
    (hlt : a.m_capacity < a.m_size + 1) :
    a.push_back v = ⟨max 1 (2 * a.m_capacity), a.m_size + 1, a.elems ++ [v]⟩ := by
  have hmod : (a.m_size + 1) % lenMod = a.m_size + 1 := Nat.mod_eq_of_lt hm
  have h : a.m_capacity < (a.m_size + 1) % lenMod := by rw [hmod]; exact hlt
  rw [dynamic_array.push_back_of_grow v h, hmod]
  rw [dynamic_array.mk.injEq]
  refine ⟨?_, rfl, rfl⟩
  by_cases h0 : a.m_capacity = 0
  · rw [if_pos h0, h0]
    omega
  · rw [if_neg h0, Nat.mod_eq_of_lt hc]
    omega

theorem push_back_fits {α : Type} [Inhabited α] {a : dynamic_array α} (v : α)
    (hm : a.m_size + 1 < lenMod) (hle : a.m_size + 1 ≤ a.m_capacity) :
    a.push_back v = ⟨a.m_capacity, a.m_size + 1, a.elems ++ [v]⟩ := by
  have hmod : (a.m_size + 1) % lenMod = a.m_size + 1 := Nat.mod_eq_of_lt hm
  refine (dynamic_array.push_back_no_grow v ?_).trans ?_
  · rw [hmod]
    omega
  · rw [hmod]

/-- Size/capacity bookkeeping of `k` pushes starting from the empty array: the
size is `k` and the capacity is a power of two in the interval `[k, 2k)`. -/
theorem pushN_invariant {α : Type} [Inhabited α] (v : α) :
    ∀ k, 1 ≤ k → k ≤ 2 ^ 31 →
      (dynamic_array.pushN v k (dynamic_array.empty : dynamic_array α)).m_size = k ∧
      (∃ j, (dynamic_array.pushN v k (dynamic_array.empty : dynamic_array α)).m_capacity
          = 2 ^ j) ∧
      k ≤ (dynamic_array.pushN v k (dynamic_array.empty : dynamic_array α)).m_capacity ∧
      (dynamic_array.pushN v k (dynamic_array.empty : dynamic_array α)).m_capacity
          < 2 * k := by
  intro k
  induction k with
  | zero => intro h _; exact absurd h (by omega)
  | succ k ih =>
    intro _ h2
    by_cases hk : k = 0
    · subst hk
      rw [dynamic_array.pushN, dynamic_array.pushN]
      have hone : (dynamic_array.empty : dynamic_array α).push_back v = ⟨1, 1, [v]⟩ := by
        rw [dynamic_array.empty_def,
          push_back_full v (by norm_num [lenMod]) (by norm_num [lenMod]) (by norm_num)]
        norm_num
      rw [hone]
      exact ⟨rfl, ⟨0, rfl⟩, by norm_num, by norm_num⟩
    · obtain ⟨hsz, ⟨j, hcap⟩, hk1, hk2⟩ := ih (by omega) (by omega)
      rw [dynamic_array.pushN]
      by_cases hfits :
          k + 1 ≤ (dynamic_array.pushN v k (dynamic_array.empty : dynamic_array α)).m_capacity
      · rw [push_back_fits v (by rw [hsz]; unfold lenMod; omega) (by rw [hsz]; exact hfits)]
        refine ⟨?_, ⟨j, ?_⟩, ?_, ?_⟩ <;> dsimp only
        · omega
        · exact hcap
        · exact hfits
        · omega
      · rw [push_back_full v (by rw [hsz]; unfold lenMod; omega)
            (by unfold lenMod; omega) (by omega)]
        have h2j : 1 ≤ 2 ^ j := Nat.one_le_two_pow
        refine ⟨?_, ⟨j + 1, ?_⟩, ?_, ?_⟩ <;> dsimp only
        · omega
        · rw [hcap, Nat.max_eq_right (by omega), Nat.pow_succ]
          omega
        · omega
        · omega

/-- C5: a `push_back` (or `emplace_back`, which has the same storage code) on a
full array (`size + 1 > capacity`) first reallocates to the new capacity
`max(1, 2 * old_capacity)` without changing the size (`grow` never touches
`m_size`), and then stores the element; consequently, after `k >= 1` sequential
pushes starting from an empty array of capacity 0, the capacity is the smallest
power of two that is `>= k` and the size is `k`.  The bounds `size + 1 < 2^32`,
`2 * capacity < 2^32` and `k <= 2^31` keep the `length_t` arithmetic of the
source below its wrap-around. -/
theorem growth_policy {α : Type} [Inhabited α] (v : α) :
    (∀ a : dynamic_array α, a.m_size + 1 < lenMod → 2 * a.m_capacity < lenMod →
      a.m_capacity < a.m_size + 1 →
      (a.grow (max 1 (2 * a.m_capacity))).m_size = a.m_size ∧
      a.push_back v = ⟨max 1 (2 * a.m_capacity), a.m_size + 1, a.elems ++ [v]⟩ ∧
      a.emplace_back v = ⟨max 1 (2 * a.m_capacity), a.m_size + 1, a.elems ++ [v]⟩) ∧
    (∀ k : Nat, 1 ≤ k → k ≤ 2 ^ 31 →
      (dynamic_array.pushN v k (dynamic_array.empty : dynamic_array α)).m_size = k ∧
      (∃ j, (dynamic_array.pushN v k (dynamic_array.empty : dynamic_array α)).m_capacity
          = 2 ^ j) ∧
      k ≤ (dynamic_array.pushN v k (dynamic_array.empty : dynamic_array α)).m_capacity ∧
      (∀ m, k ≤ 2 ^ m →
        (dynamic_array.pushN v k (dynamic_array.empty : dynamic_array α)).m_capacity
          ≤ 2 ^ m)) := by
  constructor
  · intro a hm hc hlt
    refine ⟨dynamic_array.grow_m_size a _, push_back_full v hm hc hlt, ?_⟩
    rw [dynamic_array.emplace_back_eq_push_back]
    exact push_back_full v hm hc hlt
  · intro k hk1 hk2
    obtain ⟨hsz, ⟨j, hcap⟩, hlo, hhi⟩ := pushN_invariant v k hk1 hk2
    refine ⟨hsz, ⟨j, hcap⟩, hlo, ?_⟩
    intro m hm
    rw [hcap]
    have hjm : j ≤ m := by
      by_contra hcon
      have hm1 : m + 1 ≤ j := by omega
      have : 2 ^ (m + 1) ≤ 2 ^ j := Nat.pow_le_pow_right (by omega) hm1
      rw [Nat.pow_succ] at this
      omega
    exact Nat.pow_le_pow_right (by omega) hjm

/-- C5 (witness): five pushes from the empty array give size 5 and capacity 8,
the smallest power of two at least 5; and a push on the full array `[1, 2]`
(capacity 2) reallocates to `max(1, 4) = 4`. -/
theorem growth_policy_witness :
    (((⟨2, 2, [1, 2]⟩ : dynamic_array Nat).m_size + 1 < lenMod ∧
      2 * (⟨2, 2, [1, 2]⟩ : dynamic_array Nat).m_capacity < lenMod ∧
      (⟨2, 2, [1, 2]⟩ : dynamic_array Nat).m_capacity
        < (⟨2, 2, [1, 2]⟩ : dynamic_array Nat).m_size + 1) ∧
     (⟨2, 2, [1, 2]⟩ : dynamic_array Nat).push_back 7
        = ⟨max 1 (2 * (⟨2, 2, [1, 2]⟩ : dynamic_array Nat).m_capacity),
           (⟨2, 2, [1, 2]⟩ : dynamic_array Nat).m_size + 1,
           (⟨2, 2, [1, 2]⟩ : dynamic_array Nat).elems ++ [7]⟩) ∧
    ((1 ≤ 5 ∧ 5 ≤ 2 ^ 31) ∧
     (dynamic_array.pushN 7 5 (dynamic_array.empty : dynamic_array Nat)).m_size = 5 ∧
     (∃ j, (dynamic_array.pushN 7 5 (dynamic_array.empty : dynamic_array Nat)).m_capacity
        = 2 ^ j) ∧
     5 ≤ (dynamic_array.pushN 7 5 (dynamic_array.empty : dynamic_array Nat)).m_capacity ∧
     (∀ m, 5 ≤ 2 ^ m →
       (dynamic_array.pushN 7 5 (dynamic_array.empty : dynamic_array Nat)).m_capacity
          ≤ 2 ^ m)) :=
  ⟨⟨⟨by norm_num [lenMod], by norm_num [lenMod], by norm_num⟩,
    ((growth_policy 7).1 (⟨2, 2, [1, 2]⟩ : dynamic_array Nat)
      (by norm_num [lenMod]) (by norm_num [lenMod]) (by norm_num)).2.1⟩,
   ⟨⟨by norm_num, by norm_num⟩,
    (growth_policy 7).2 5 (by norm_num) (by norm_num)⟩⟩

/-! Preservation of the size/capacity invariant by each public operation. -/

theorem push_preserves {α : Type} [Inhabited α] (a : dynamic_array α) (v : α)
    (h1 : a.m_size ≤ a.m_capacity) (h2 : a.m_capacity < lenMod)
    (hm : a.m_size + 1 < lenMod)
    (hc : a.m_size = a.m_capacity → 2 * a.m_capacity < lenMod) :
    (a.push_back v).m_size ≤ (a.push_back v).m_capacity ∧
    (a.push_back v).m_capacity < lenMod := by
  have hone : (1 : Nat) < lenMod := by unfold lenMod; omega
  by_cases hfull : a.m_capacity < a.m_size + 1
  · have hcap : a.m_size = a.m_capacity := by omega
    rw [push_back_full v hm (hc hcap) hfull]
    constructor
    · show a.m_size + 1 ≤ max 1 (2 * a.m_capacity)
      omega
    · show max 1 (2 * a.m_capacity) < lenMod
      have := hc hcap
      omega
  · rw [push_back_fits v hm (by omega)]
    constructor
    · show a.m_size + 1 ≤ a.m_capacity
      omega
    · show a.m_capacity < lenMod
      exact h2

theorem copyLoop_state {α : Type} [Inhabited α] (other : dynamic_array α)
    (hM : other.m_capacity < lenMod) :
    ∀ d i a, other.m_size - i = d → a.m_capacity = other.m_capacity →
      a.m_size + (other.m_size - i) ≤ other.m_capacity →
      (dynamic_array.copyLoop other a i).m_capacity = other.m_capacity ∧
      (dynamic_array.copyLoop other a i).m_size = a.m_size + (other.m_size - i) := by
  intro d
  induction d with
  | zero =>
    intro i a hd hcap hsz
    rw [dynamic_array.copyLoop, if_neg (by omega)]
    exact ⟨hcap, by omega⟩
  | succ d ihd =>
    intro i a hd hcap hsz
    rw [dynamic_array.copyLoop, if_pos (by omega)]
    rw [push_back_fits (other.elems.getD i default) (by omega) (by omega)]
    obtain ⟨hc2, hs2⟩ := ihd (i + 1)
      (⟨a.m_capacity, a.m_size + 1, a.elems ++ [other.elems.getD i default]⟩ :
        dynamic_array α)
      (by omega) (by show a.m_capacity = other.m_capacity; exact hcap)
      (by show a.m_size + 1 + (other.m_size - (i + 1)) ≤ other.m_capacity; omega)
    refine ⟨hc2, ?_⟩
    rw [hs2]
    show a.m_size + 1 + (other.m_size - (i + 1)) = a.m_size + (other.m_size - i)
    omega

theorem copyCtor_state {α : Type} [Inhabited α] (b : dynamic_array α)
    (h1 : b.m_size ≤ b.m_capacity) (h2 : b.m_capacity < lenMod) :
    (dynamic_array.copyCtor b).m_capacity = b.m_capacity ∧
    (dynamic_array.copyCtor b).m_size = b.m_size := by
  obtain ⟨hc, hs⟩ := copyLoop_state b h2 (b.m_size - 0) 0
    (dynamic_array.ofCapacity b.m_capacity) rfl
    (by show b.m_capacity = b.m_capacity; rfl)
    (by show 0 + (b.m_size - 0) ≤ b.m_capacity; omega)
  refine ⟨hc, ?_⟩
  rw [dynamic_array.copyCtor] at *
  rw [hs]
  show 0 + (b.m_size - 0) = b.m_size
  omega

theorem step_preserves {α : Type} [Inhabited α] (a : dynamic_array α) (op : Op α)
    (h1 : a.m_size ≤ a.m_capacity) (h2 : a.m_capacity < lenMod)
    (hs : dynamic_array.SafeOp a op = true) :
    (dynamic_array.step a op).m_size ≤ (dynamic_array.step a op).m_capacity ∧
    (dynamic_array.step a op).m_capacity < lenMod := by
  cases op with
  | push v =>
    have hsafe : a.m_size + 1 < lenMod ∧
        (¬ a.m_size = a.m_capacity ∨ 2 * a.m_capacity < lenMod) := by
      simpa [dynamic_array.SafeOp] using hs
    rw [dynamic_array.step_push]
    exact push_preserves a v h1 h2 hsafe.1
      (fun he => hsafe.2.elim (fun hn => absurd he hn) id)
  | emplace v =>
    have hsafe : a.m_size + 1 < lenMod ∧
        (¬ a.m_size = a.m_capacity ∨ 2 * a.m_capacity < lenMod) := by
      simpa [dynamic_array.SafeOp] using hs
    rw [dynamic_array.step_emplace, dynamic_array.emplace_back_eq_push_back]
    exact push_preserves a v h1 h2 hsafe.1
      (fun he => hsafe.2.elim (fun hn => absurd he hn) id)
  | pop =>
    have hp : 0 < a.m_size := by simpa [dynamic_array.SafeOp] using hs
    rw [dynamic_array.step_pop, dynamic_array.pop_back_def]
    dsimp only
    rw [usub1_eq (by omega) (by omega)]
    exact ⟨by omega, h2⟩
  | shiftRm i =>
    rw [dynamic_array.step_shiftRm]
    by_cases hb : a.m_size ≤ toLen i
    · rw [dynamic_array.shift_remove_err hb]
      exact ⟨h1, h2⟩
    · push_neg at hb
      rw [dynamic_array.shift_remove_ok hb]
      dsimp only
      rw [dynamic_array.pop_back_def]
      dsimp only
      rw [usub1_eq (by omega) (by omega)]
      exact ⟨by omega, h2⟩
  | swapRm i =>
    rw [dynamic_array.step_swapRm]
    by_cases hb : a.m_size ≤ toLen i
    · rw [dynamic_array.swap_remove_err hb]
      exact ⟨h1, h2⟩
    · push_neg at hb
      by_cases hlt : toLen i < usub1 a.m_size
      · rw [dynamic_array.swap_remove_ok_swap hb hlt]
        dsimp only
        rw [dynamic_array.pop_back_def]
        dsimp only
        rw [usub1_eq (by omega) (by omega)]
        exact ⟨by omega, h2⟩
      · rw [dynamic_array.swap_remove_ok_last hb hlt]
        dsimp only
        rw [dynamic_array.pop_back_def]
        dsimp only
        rw [usub1_eq (by omega) (by omega)]
        exact ⟨by omega, h2⟩
  | clearOp =>
    rw [dynamic_array.step_clearOp, dynamic_array.clear_def]
    exact ⟨Nat.zero_le _, h2⟩
  | copyAssign b =>
    have hb : b.m_size ≤ b.m_capacity ∧ b.m_capacity < lenMod := by
      simpa [dynamic_array.SafeOp] using hs
    rw [dynamic_array.step_copyAssign]
    obtain ⟨hc, hsz⟩ := copyCtor_state b hb.1 hb.2
    rw [hc, hsz]
    exact hb
  | moveAssign b =>
    have hb : b.m_size ≤ b.m_capacity ∧ b.m_capacity < lenMod := by
      simpa [dynamic_array.SafeOp] using hs
    rw [dynamic_array.step_moveAssign]
    exact hb

/-- C3 (counterexample): the invariant `size() <= capacity()` does not survive
every call that returns normally: starting from the default-constructed array
(size 0, capacity 0), the single call `pop_back()` returns normally (it performs
no bounds check) and leaves `m_size = 2^32 - 1 > 0 = m_capacity`. -/
theorem invariant_cex :
    ¬ ((dynamic_array.run (dynamic_array.empty : dynamic_array Nat) [Op.pop]).m_size ≤
       (dynamic_array.run (dynamic_array.empty : dynamic_array Nat) [Op.pop]).m_capacity) := by
  have h : dynamic_array.run (dynamic_array.empty : dynamic_array Nat) [Op.pop]
      = (dynamic_array.empty : dynamic_array Nat).pop_back := rfl
  rw [h, dynamic_array.empty_def, dynamic_array.pop_back_def]
  show ¬ (usub1 0 ≤ 0)
  rw [usub1_zero]
  unfold lenMod
  omega

/-- C3 (amended): `size() <= capacity()` (together with `capacity < 2^32`, the
`length_t` range) is preserved by every public call — `push_back`,
`emplace_back`, `pop_back`, `shift_remove`, `swap_remove` (also when they raise
the out-of-range failure, which happens before any write), `clear`, copy
assignment and move assignment — along any call sequence in which `pop_back` is
only invoked on a non-empty array, insertions do not push `m_size + 1` or the
doubled capacity past `2^32`, and assigned-from arrays satisfy the same bounds.
Starting from any constructed array (all constructors establish
`size <= capacity`), the invariant therefore holds after every call of such a
sequence. -/
theorem size_le_capacity_trace {α : Type} [Inhabited α] (ops : List (Op α)) :
    ∀ a : dynamic_array α, a.m_size ≤ a.m_capacity → a.m_capacity < lenMod →
      dynamic_array.SafeTrace a ops = true →
      (dynamic_array.run a ops).m_size ≤ (dynamic_array.run a ops).m_capacity := by
  induction ops with
  | nil =>
    intro a h1 _ _
    exact h1
  | cons op ops ih =>
    intro a h1 h2 hs
    rw [dynamic_array.SafeTrace, Bool.and_eq_true] at hs
    have hstep := step_preserves a op h1 h2 hs.1
    exact ih (dynamic_array.step a op) hstep.1 hstep.2 hs.2

/-- C3 (witness): the invariant along a concrete safe trace exercising a push,
an emplace, a pop, both removals and a clear, starting from the default
constructor. -/
theorem size_le_capacity_trace_witness :
    ((dynamic_array.empty : dynamic_array Nat).m_size ≤
        (dynamic_array.empty : dynamic_array Nat).m_capacity ∧
     (dynamic_array.empty : dynamic_array Nat).m_capacity < lenMod ∧
     dynamic_array.SafeTrace (dynamic_array.empty : dynamic_array Nat)
       [Op.push 1, Op.push 2, Op.pop, Op.emplace 3, Op.shiftRm 0, Op.swapRm 0,
        Op.clearOp] = true) ∧
    (dynamic_array.run (dynamic_array.empty : dynamic_array Nat)
       [Op.push 1, Op.push 2, Op.pop, Op.emplace 3, Op.shiftRm 0, Op.swapRm 0,
        Op.clearOp]).m_size ≤
    (dynamic_array.run (dynamic_array.empty : dynamic_array Nat)
       [Op.push 1, Op.push 2, Op.pop, Op.emplace 3, Op.shiftRm 0, Op.swapRm 0,
        Op.clearOp]).m_capacity :=
  ⟨⟨Nat.le_refl 0, by rw [dynamic_array.empty_def]; norm_num [lenMod],
      by set_option maxRecDepth 4000 in decide⟩,
    size_le_capacity_trace
      [Op.push 1, Op.push 2, Op.pop, Op.emplace 3, Op.shiftRm 0, Op.swapRm 0,
       Op.clearOp]
      (dynamic_array.empty : dynamic_array Nat) (Nat.le_refl 0)
      (by rw [dynamic_array.empty_def]; norm_num [lenMod])
      (by set_option maxRecDepth 4000 in decide)⟩

theorem getD_of_lt {α : Type} [Inhabited α] (l : List α) (i : Nat) (h : i < l.length) :
    l.getD i default = l[i] := by
  rw [List.getD_eq_getElem?_getD, List.getElem?_eq_getElem h]
  rfl

theorem drop_length_sub_one {α : Type} [Inhabited α] (l : List α) (h : 0 < l.length) :
    l.drop (l.length - 1) = [l.getD (l.length - 1) default] := by
  have h1 : l.length - 1 < l.length := by omega
  rw [List.drop_eq_getElem_cons h1]
  rw [getD_of_lt l (l.length - 1) h1]
  congr 1
  have h2 : l.length - 1 + 1 = l.length := by omega
  rw [h2, List.drop_length]

theorem take_set_succ {α : Type} [Inhabited α] (l : List α) (j0 : Nat) (x : α)
    (h : j0 < l.length) :
    (l.set j0 x).take (j0 + 1) = l.take j0 ++ [x] := by
  rw [List.set_take]
  rw [List.take_succ, List.getElem?_eq_getElem h]
  have htl : (some l[j0]).toList = [l[j0]] := rfl
  rw [htl]
  rw [List.set_append_right _ _ (by rw [List.length_take]; omega)]
  have h0 : j0 - (l.take j0).length = 0 := by rw [List.length_take]; omega
  rw [h0]
  rfl

theorem shiftLoop_eq {α : Type} [Inhabited α] :
    ∀ d (l : List α) (j : Nat), l.length - j = d → 1 ≤ j → j ≤ l.length →
      dynamic_array.shiftLoop l j l.length =
        (l.take (j - 1) ++ l.drop j) ++ l.drop (l.length - 1) := by
  intro d
  induction d with
  | zero =>
    intro l j hd h1 h2
    have hj : j = l.length := by omega
    rw [dynamic_array.shiftLoop, if_neg (by omega)]
    subst hj
    rw [List.drop_length, List.append_nil, List.take_append_drop]
  | succ d ihd =>
    intro l j hd h1 h2
    have hj : j < l.length := by omega
    obtain ⟨j0, rfl⟩ : ∃ j0, j = j0 + 1 := ⟨j - 1, by omega⟩
    rw [dynamic_array.shiftLoop, if_pos hj]
    simp only [Nat.add_sub_cancel]
    have hlen : (l.set j0 (l.getD (j0 + 1) default)).length = l.length :=
      List.length_set l _ _
    have hIH := ihd (l.set j0 (l.getD (j0 + 1) default)) (j0 + 1 + 1)
      (by rw [hlen]; omega) (by omega) (by rw [hlen]; omega)
    rw [hlen] at hIH
    rw [hIH]
    simp only [Nat.add_sub_cancel]
    rw [take_set_succ l j0 _ (by omega)]
    rw [List.drop_set_of_lt _ l (by omega : j0 < j0 + 1 + 1)]
    rw [List.drop_set_of_lt _ l (by omega : j0 < l.length - 1)]
    rw [List.drop_eq_getElem_cons (by omega : j0 + 1 < l.length)]
    have hg : l.getD (j0 + 1) default = l[j0 + 1] := getD_of_lt l (j0 + 1) (by omega)
    simp only [hg, List.append_assoc, List.singleton_append]

/-- C7: for every array whose live elements are `[e0..en]` and every index
`i < size` (representable as a C++ `int`), `shift_remove(i)` succeeds and
yields exactly the element sequence `take i ++ drop (i+1)` — i.e.
`[e0..e(i-1), e(i+1)..en]`, the relative order of all remaining elements
preserved — with the size decreased by exactly 1 and the capacity unchanged. -/
theorem shift_remove_spec {α : Type} [Inhabited α] (a : dynamic_array α) (i : Nat)
    (hwf : a.elems.length = a.m_size) (hM : a.m_size < lenMod)
    (hi : i < a.m_size) (hint : i < 2 ^ 31) :
    a.shift_remove (i : Int) =
      Except.ok ⟨a.m_capacity, a.m_size - 1, a.elems.take i ++ a.elems.drop (i + 1)⟩ := by
  have hiM : i < lenMod := by unfold lenMod at *; omega
  have htl : toLen (i : Int) = i := toLen_coe hiM
  rw [dynamic_array.shift_remove_ok (by rw [htl]; exact hi), htl]
  rw [dynamic_array.pop_back_def]
  dsimp only
  rw [usub1_eq (by omega) (by omega)]
  have hsl : dynamic_array.shiftLoop a.elems (i + 1) a.m_size
      = (a.elems.take i ++ a.elems.drop (i + 1)) ++ a.elems.drop (a.elems.length - 1) := by
    conv_lhs => rw [← hwf]
    have h := shiftLoop_eq (a.elems.length - (i + 1)) a.elems (i + 1) rfl (by omega)
      (by omega)
    rw [h]
    simp only [Nat.add_sub_cancel]
  rw [hsl]
  rw [drop_length_sub_one a.elems (by omega)]
  rw [List.dropLast_concat]

theorem set_last_dropLast {α : Type} (l : List α) (y : α) :
    (l.set (l.length - 1) y).dropLast = l.dropLast := by
  rw [List.dropLast_eq_take, List.length_set, List.dropLast_eq_take]
  rw [List.set_take]
  apply List.set_eq_of_length_le
  rw [List.length_take]
  omega

theorem drop_decomp {α : Type} [Inhabited α] (l : List α) (i : Nat) (h : i + 1 < l.length) :
    l.drop (i + 1) = (l.drop (i + 1)).dropLast ++ [l.getD (l.length - 1) default] := by
  have hD : 0 < (l.drop (i + 1)).length := by rw [List.length_drop]; omega
  have h1 := drop_length_sub_one (l.drop (i + 1)) hD
  conv_lhs => rw [← List.take_append_drop ((l.drop (i + 1)).length - 1) (l.drop (i + 1))]
  rw [← List.dropLast_eq_take, h1]
  have h2 : (l.drop (i + 1)).getD ((l.drop (i + 1)).length - 1) default
      = l.getD (l.length - 1) default := by
    rw [List.getD_eq_getElem?_getD, List.getD_eq_getElem?_getD, List.getElem?_drop]
    have h3 : i + 1 + ((l.drop (i + 1)).length - 1) = l.length - 1 := by
      rw [List.length_drop]
      omega
    rw [h3]
  rw [h2]

theorem set_dropLast_decomp {α : Type} [Inhabited α] (l : List α) (i : Nat)
    (h : i + 1 < l.length) :
    (l.set i (l.getD (l.length - 1) default)).dropLast
      = l.take i ++ l.getD (l.length - 1) default :: (l.drop (i + 1)).dropLast := by
  rw [List.set_eq_take_cons_drop _ (by omega)]
  have hne : l.drop (i + 1) ≠ [] := by
    apply List.ne_nil_of_length_pos
    rw [List.length_drop]
    omega
  rw [List.dropLast_append_cons]
  congr 1
  rw [List.dropLast_cons_of_ne_nil hne]

theorem swap_set_perm {α : Type} [Inhabited α] (l : List α) (i : Nat)
    (h : i + 1 < l.length) :
    ((l.set i (l.getD (l.length - 1) default)).dropLast).Perm (l.eraseIdx i) := by
  rw [set_dropLast_decomp l i h]
  rw [List.eraseIdx_eq_take_drop_succ]
  conv_rhs => rw [drop_decomp l i h]
  exact List.Perm.append_left _ ((List.perm_append_singleton _ _).symm)

theorem set_dropLast_getD {α : Type} [Inhabited α] (l : List α) (i k : Nat)
    (hik : i + 1 < l.length) (hk : k < l.length - 1) :
    ((l.set i (l.getD (l.length - 1) default)).dropLast).getD k default
      = if k = i then l.getD (l.length - 1) default else l.getD k default := by
  rw [List.dropLast_eq_take, List.length_set]
  rw [List.getD_eq_getElem?_getD]
  rw [List.getElem?_take_of_lt hk]
  by_cases hki : k = i
  · subst hki
    rw [List.getElem?_set_self (by omega)]
    rw [if_pos rfl]
    rfl
  · rw [List.getElem?_set_ne (by omega)]
    rw [if_neg hki, ← List.getD_eq_getElem?_getD]

theorem set_set_last_dropLast {α : Type} (l : List α) (i : Nat) (x y : α) :
    ((l.set i x).set (l.length - 1) y).dropLast = (l.set i x).dropLast := by
  have h := set_last_dropLast (l.set i x) y
  rw [List.length_set] at h
  exact h

/-- C8: for every array and every index `i < size` (representable as a C++
`int`), `swap_remove(i)` succeeds, decreases the size by exactly 1, leaves the
capacity unchanged, yields a multiset of elements equal to the original minus
the element that was at index `i` (stated as a permutation of `eraseIdx i`),
and places the former last element at position `i` while every other surviving
position keeps its element — unless `i` was already the last index, in which
case the result is exactly the original sequence without its last element. -/
theorem swap_remove_spec {α : Type} [Inhabited α] (a : dynamic_array α) (i : Nat)
    (hwf : a.elems.length = a.m_size) (hM : a.m_size < lenMod)
    (hi : i < a.m_size) (hint : i < 2 ^ 31) :
    ∃ b, a.swap_remove (i : Int) = Except.ok b ∧
      b.m_size = a.m_size - 1 ∧ b.m_capacity = a.m_capacity ∧
      b.elems.Perm (a.elems.eraseIdx i) ∧
      (i < a.m_size - 1 →
        b.elems.getD i default = a.elems.getD (a.m_size - 1) default ∧
        ∀ k, k < a.m_size - 1 → k ≠ i →
          b.elems.getD k default = a.elems.getD k default) ∧
      (i = a.m_size - 1 → b.elems = a.elems.dropLast) := by
  have hiM : i < lenMod := by unfold lenMod at *; omega
  have htl : toLen (i : Int) = i := toLen_coe hiM
  have hn1 : usub1 a.m_size = a.m_size - 1 := usub1_eq (by omega) (by omega)
  have hl1 : a.m_size - 1 = a.elems.length - 1 := by omega
  by_cases hcase : i < a.m_size - 1
  · have hblt : toLen (i : Int) < usub1 a.m_size := by rw [htl, hn1]; exact hcase
    rw [dynamic_array.swap_remove_ok_swap (by rw [htl]; exact hi) hblt]
    rw [dynamic_array.pop_back_def]
    dsimp only
    rw [htl, hn1, hl1]
    rw [set_set_last_dropLast]
    refine ⟨_, rfl, rfl, rfl, ?_, ?_, ?_⟩
    · show ((a.elems.set i (a.elems.getD (a.elems.length - 1) default)).dropLast).Perm
        (a.elems.eraseIdx i)
      exact swap_set_perm a.elems i (by omega)
    · intro hlt2
      constructor
      · have h := set_dropLast_getD a.elems i i (by omega) (by omega)
        rw [if_pos rfl] at h
        exact h
      · intro k hk hki
        have h := set_dropLast_getD a.elems i k (by omega) (by omega)
        rw [if_neg hki] at h
        exact h
    · intro hcon
      exact absurd hcon (by omega)
  · have hbge : ¬ toLen (i : Int) < usub1 a.m_size := by rw [htl, hn1]; omega
    rw [dynamic_array.swap_remove_ok_last (by rw [htl]; exact hi) hbge]
    rw [dynamic_array.pop_back_def]
    rw [hn1]
    refine ⟨_, rfl, rfl, rfl, ?_, ?_, ?_⟩
    · show (a.elems.dropLast).Perm (a.elems.eraseIdx i)
      have hieq : i = a.elems.length - 1 := by omega
      rw [List.eraseIdx_eq_take_drop_succ, hieq]
      rw [show a.elems.length - 1 + 1 = a.elems.length by omega, List.drop_length,
        List.append_nil, ← List.dropLast_eq_take]
    · intro hcon
      exact absurd hcon (by omega)
    · intro _
      rfl

/-- C7 (witness): `shift_remove(1)` on `[10, 20, 30]` yields `[10, 30]` with
size 2. -/
theorem shift_remove_spec_witness :
    ((⟨3, 3, [10, 20, 30]⟩ : dynamic_array Nat).elems.length
        = (⟨3, 3, [10, 20, 30]⟩ : dynamic_array Nat).m_size ∧
     (⟨3, 3, [10, 20, 30]⟩ : dynamic_array Nat).m_size < lenMod ∧
     1 < (⟨3, 3, [10, 20, 30]⟩ : dynamic_array Nat).m_size ∧ (1 : Nat) < 2 ^ 31) ∧
    (⟨3, 3, [10, 20, 30]⟩ : dynamic_array Nat).shift_remove ((1 : Nat) : Int)
      = Except.ok ⟨3, 2, [10, 30]⟩ :=
  ⟨⟨rfl, by norm_num [lenMod], by norm_num, by norm_num⟩, by
    have h := shift_remove_spec (⟨3, 3, [10, 20, 30]⟩ : dynamic_array Nat) 1 rfl
      (by norm_num [lenMod]) (by norm_num) (by norm_num)
    simpa using h⟩

/-- C8 (witness): `swap_remove(0)` on `[10, 20, 30]` yields a two-element
array holding `[30, 20]`: the former last element moved to position 0. -/
theorem swap_remove_spec_witness :
    ((⟨3, 3, [10, 20, 30]⟩ : dynamic_array Nat).elems.length
        = (⟨3, 3, [10, 20, 30]⟩ : dynamic_array Nat).m_size ∧
     (⟨3, 3, [10, 20, 30]⟩ : dynamic_array Nat).m_size < lenMod ∧
     0 < (⟨3, 3, [10, 20, 30]⟩ : dynamic_array Nat).m_size ∧ (0 : Nat) < 2 ^ 31) ∧
    (∃ b, (⟨3, 3, [10, 20, 30]⟩ : dynamic_array Nat).swap_remove ((0 : Nat) : Int)
        = Except.ok b ∧
      b.m_size = (⟨3, 3, [10, 20, 30]⟩ : dynamic_array Nat).m_size - 1 ∧
      b.m_capacity = (⟨3, 3, [10, 20, 30]⟩ : dynamic_array Nat).m_capacity ∧
      b.elems.Perm ((⟨3, 3, [10, 20, 30]⟩ : dynamic_array Nat).elems.eraseIdx 0) ∧
      (0 < (⟨3, 3, [10, 20, 30]⟩ : dynamic_array Nat).m_size - 1 →
        b.elems.getD 0 default
          = (⟨3, 3, [10, 20, 30]⟩ : dynamic_array Nat).elems.getD
              ((⟨3, 3, [10, 20, 30]⟩ : dynamic_array Nat).m_size - 1) default ∧
        ∀ k, k < (⟨3, 3, [10, 20, 30]⟩ : dynamic_array Nat).m_size - 1 → k ≠ 0 →
          b.elems.getD k default
            = (⟨3, 3, [10, 20, 30]⟩ : dynamic_array Nat).elems.getD k default) ∧
      (0 = (⟨3, 3, [10, 20, 30]⟩ : dynamic_array Nat).m_size - 1 →
        b.elems = (⟨3, 3, [10, 20, 30]⟩ : dynamic_array Nat).elems.dropLast)) :=
  ⟨⟨rfl, by norm_num [lenMod], by norm_num, by norm_num⟩,
    swap_remove_spec (⟨3, 3, [10, 20, 30]⟩ : dynamic_array Nat) 0 rfl
      (by norm_num [lenMod]) (by norm_num) (by norm_num)⟩

theorem bsLoop_eq {α β : Type} [Inhabited α] (a : dynamic_array α) (v : β)
    (pred : α → β → Int) (j : Nat)
    (hlow : ∀ k, k < j → pred (a.elems.getD k default) v < 0)
    (hhigh : ∀ k, j ≤ k → k < a.m_size → 0 ≤ pred (a.elems.getD k default) v) :
    ∀ d imin imax, imax - imin = d → imin ≤ j → j ≤ imax → imax < a.m_size →
      dynamic_array.bsLoop a v pred imin imax = j := by
  intro d
  induction d using Nat.strong_induction_on with
  | _ d ihd =>
    intro imin imax hd h1 h2 hsz
    by_cases hlt : imin < imax
    · rw [dynamic_array.bsLoop, dif_pos hlt]
      dsimp only
      by_cases hp : pred (a.elems.getD ((imin + imax) / 2) default) v < 0
      · rw [if_pos hp]
        have himid : (imin + imax) / 2 < j := by
          by_contra hcon
          push_neg at hcon
          have := hhigh _ hcon (by omega)
          omega
        exact ihd (imax - ((imin + imax) / 2 + 1)) (by omega) ((imin + imax) / 2 + 1)
          imax rfl (by omega) h2 hsz
      · rw [if_neg hp]
        push_neg at hp
        have himid : j ≤ (imin + imax) / 2 := by
          by_contra hcon
          push_neg at hcon
          have := hlow _ hcon
          omega
        exact ihd ((imin + imax) / 2 - imin) (by omega) imin ((imin + imax) / 2)
          rfl h1 himid (by omega)
    · rw [dynamic_array.bsLoop, dif_neg hlt]
      omega

/-- C6: on a non-empty array whose elements are sorted with respect to the
three-way comparison predicate (monotone comparison results along the array),
`binarySearch(value, pred)` returns the leftmost index `j` whose element
compares `>= value` (`0 <= pred element[j] value`, with every earlier element
comparing `< 0`).  The bound `size <= 2^30` keeps the `int` arithmetic
`(imin + imax) / 2` of the source below `int` overflow, where the model and the
source agree. -/
theorem binarySearch_leftmost {α β : Type} [Inhabited α] (a : dynamic_array α)
    (v : β) (pred : α → β → Int) (j : Nat)
    (hne : 0 < a.m_size) (hsz : a.m_size ≤ 2 ^ 30) (hj : j < a.m_size)
    (hgood : 0 ≤ pred (a.elems.getD j default) v)
    (hmin : ∀ k, k < j → pred (a.elems.getD k default) v < 0)
    (hsorted : ∀ q, q < a.m_size → ∀ p, p ≤ q →
      pred (a.elems.getD p default) v ≤ pred (a.elems.getD q default) v) :
    a.binarySearch v pred = Except.ok j := by
  have hM : a.m_size ≤ lenMod := by unfold lenMod at *; omega
  have hhigh : ∀ k, j ≤ k → k < a.m_size → 0 ≤ pred (a.elems.getD k default) v :=
    fun k hjk hk => le_trans hgood (hsorted k hk j hjk)
  unfold dynamic_array.binarySearch
  rw [dynamic_array.last_index_pos (by omega) hM]
  dsimp only
  rw [bsLoop_eq a v pred j hmin hhigh (a.m_size - 1 - 0) 0 (a.m_size - 1) rfl
    (by omega) (by omega) (by omega)]

/-- C6 (witness): on `[1, 3, 3, 7]` under ascending order, `binarySearch(3)`
returns the leftmost match, index 1, and `binarySearch(5)` returns index 3, the
first index whose element is `>= 5`. -/
theorem binarySearch_leftmost_witness :
    ((0 < (⟨4, 4, [1, 3, 3, 7]⟩ : dynamic_array Int).m_size ∧
      (⟨4, 4, [1, 3, 3, 7]⟩ : dynamic_array Int).m_size ≤ 2 ^ 30 ∧
      1 < (⟨4, 4, [1, 3, 3, 7]⟩ : dynamic_array Int).m_size ∧
      0 ≤ (fun (x : Int) (v : Int) => x - v)
          ((⟨4, 4, [1, 3, 3, 7]⟩ : dynamic_array Int).elems.getD 1 default) 3 ∧
      (∀ k, k < 1 → (fun (x : Int) (v : Int) => x - v)
          ((⟨4, 4, [1, 3, 3, 7]⟩ : dynamic_array Int).elems.getD k default) 3 < 0) ∧
      (∀ q, q < (⟨4, 4, [1, 3, 3, 7]⟩ : dynamic_array Int).m_size → ∀ p, p ≤ q →
        (fun (x : Int) (v : Int) => x - v)
            ((⟨4, 4, [1, 3, 3, 7]⟩ : dynamic_array Int).elems.getD p default) 3 ≤
        (fun (x : Int) (v : Int) => x - v)
            ((⟨4, 4, [1, 3, 3, 7]⟩ : dynamic_array Int).elems.getD q default) 3)) ∧
    ((⟨4, 4, [1, 3, 3, 7]⟩ : dynamic_array Int).binarySearch 3
        (fun (x : Int) (v : Int) => x - v) = Except.ok 1 ∧
     (⟨4, 4, [1, 3, 3, 7]⟩ : dynamic_array Int).binarySearch 5
        (fun (x : Int) (v : Int) => x - v) = Except.ok 3)) :=
  ⟨⟨by norm_num, by norm_num, by norm_num, by decide, by decide, by decide⟩,
   binarySearch_leftmost (⟨4, 4, [1, 3, 3, 7]⟩ : dynamic_array Int) 3
      (fun (x : Int) (v : Int) => x - v) 1
      (by norm_num) (by norm_num) (by norm_num) (by decide) (by decide) (by decide),
   binarySearch_leftmost (⟨4, 4, [1, 3, 3, 7]⟩ : dynamic_array Int) 5
      (fun (x : Int) (v : Int) => x - v) 3
      (by norm_num) (by norm_num) (by norm_num) (by decide) (by decide) (by decide)⟩
